import Mathlib

/-!
# The SASL mechanism state machine (`sasl.go`)

A shallow embedding of `Mechanism.Step`, `Mechanism.Err` and `Mechanism.State`.

* `State` is Go's `int8`-backed `State`; it is embedded as an `Int` (the code only
  compares it with constants and assigns constants to it, so no arithmetic wraps).
* A Go `error` value is `Option GoError`: `none` is `nil`.
* A `[]byte` is `Option (List Nat)`: `none` is the `nil` slice.
* `Start` and `Next` are caller-supplied closures.  They may read and change memory of
  their own, which is the explicit parameter `W`, and they may panic instead of
  returning (a `nil` function value is the closure that always panics).  In the first
  part of the file they do not hold the `Mechanism` they belong to; the part
  "Closures that hold their `Mechanism`" repeats `Step` for closures that do and
  assign its exported fields.
* `Step` has a pointer receiver: the embedding returns the `Mechanism` after the call,
  together with the outcome (a return or a panic), the closures' memory after the
  call, and the list of closure invocations the call made, in order.
-/

namespace Sasl

/-- Go's `type State int8`. -/
abbrev State := Int

/-- The constant `Initial State = iota`. -/
def Initial : State := 0
/-- The constant `AuthTextSent`. -/
def AuthTextSent : State := 1
/-- The constant `ResponseSent`. -/
def ResponseSent : State := 2
/-- The constant `ValidServerResponse`. -/
def ValidServerResponse : State := 3

/-- Non-nil `error` values: the four package-level variables created with
`errors.New`, and any other error value a closure may produce. -/
inductive GoError where
  | ErrInvalidState
  | ErrAuthn
  | ErrAuthz
  | ErrTooManySteps
  | other (id : Nat)
  deriving DecidableEq, Repr

/-- A `[]byte`; `none` is the nil slice. -/
abbrev Bytes := Option (List Nat)

/-- The value carried by a panic: `panic(m.Err())` carries the stored error, a
panicking closure carries a value of its own. -/
inductive PanicValue where
  | error (e : GoError)
  | other (id : Nat)
  deriving DecidableEq, Repr

/-- What one invocation of `Start` or `Next` does: it returns
`(more, resp, err)` or it panics; either way it leaves its own memory in `world`. -/
inductive CallResult (W : Type) where
  | returned (more : Bool) (resp : Bytes) (err : Option GoError) (world : W)
  | panicked (v : PanicValue) (world : W)

/-- The closure and the arguments of one invocation made by `Step`. -/
inductive Call where
  | Start (state : State)
  | Next (state : State) (challenge : Bytes)
  deriving DecidableEq, Repr

/-- One invocation made by `Step`: which closure with which arguments, and what
the closure did. -/
structure Invocation (W : Type) where
  call : Call
  result : CallResult W

/-- The struct `Mechanism`. -/
structure Mechanism (W : Type) where
  Name : String
  Start : State → W → CallResult W
  Next : State → Bytes → W → CallResult W
  state : State
  resp : Bytes
  err : Option GoError

/-- The method `func (m *Mechanism) Err() error`. -/
def Mechanism.Err {W : Type} (m : Mechanism W) : Option GoError :=
  m.err

/-- The method `func (m *Mechanism) State() State`. -/
def Mechanism.State {W : Type} (m : Mechanism W) : Sasl.State :=
  m.state

/-- How a call of `Step` ends: it returns `(more, err)` or it panics. -/
inductive StepResult where
  | returned (more : Bool) (err : Option GoError)
  | panicked (v : PanicValue)
  deriving DecidableEq, Repr

/-- Everything one call of `Step` leaves behind. -/
structure StepOut (W : Type) where
  result : StepResult
  m : Mechanism W
  world : W
  calls : List (Invocation W)

/-- The method `func (m *Mechanism) Step(challenge []byte) (more bool, err error)`,
run with the closures' memory `w`.  In each `case` the tuple assignment
`more, m.resp, m.err = ...` happens only when the closure returns; when the closure
panics the panic leaves `Step` before anything is assigned. -/
def Mechanism.Step {W : Type} (m : Mechanism W) (challenge : Bytes) (w : W) : StepOut W :=
  match m.Err with
  | some e => ⟨.panicked (.error e), m, w, []⟩
  | none =>
    if m.state = Initial then
      match m.Start m.state w with
      | .panicked v w1 => ⟨.panicked v, m, w1, [⟨.Start m.state, .panicked v w1⟩]⟩
      | .returned more resp err w1 =>
        let m1 : Mechanism W := { m with resp := resp, err := err }
        let m2 : Mechanism W := { m1 with state := AuthTextSent }
        ⟨.returned more m2.err, m2, w1, [⟨.Start m.state, .returned more resp err w1⟩]⟩
    else if m.state = AuthTextSent then
      match m.Next m.state challenge w with
      | .panicked v w1 => ⟨.panicked v, m, w1, [⟨.Next m.state challenge, .panicked v w1⟩]⟩
      | .returned more resp err w1 =>
        let m1 : Mechanism W := { m with resp := resp, err := err }
        let m2 : Mechanism W := { m1 with state := ResponseSent }
        ⟨.returned more m2.err, m2, w1,
          [⟨.Next m.state challenge, .returned more resp err w1⟩]⟩
    else if m.state = ResponseSent then
      match m.Next m.state challenge w with
      | .panicked v w1 => ⟨.panicked v, m, w1, [⟨.Next m.state challenge, .panicked v w1⟩]⟩
      | .returned more resp err w1 =>
        let m1 : Mechanism W := { m with resp := resp, err := err }
        let m2 : Mechanism W := { m1 with state := ValidServerResponse }
        ⟨.returned more m2.err, m2, w1,
          [⟨.Next m.state challenge, .returned more resp err w1⟩]⟩
    else if m.state = ValidServerResponse then
      match m.Next m.state challenge w with
      | .panicked v w1 => ⟨.panicked v, m, w1, [⟨.Next m.state challenge, .panicked v w1⟩]⟩
      | .returned more resp err w1 =>
        let m1 : Mechanism W := { m with resp := resp, err := err }
        ⟨.returned more m1.err, m1, w1,
          [⟨.Next m.state challenge, .returned more resp err w1⟩]⟩
    else
      ⟨.returned false (some .ErrInvalidState), m, w, []⟩

/-- A driver calling `Step` once per challenge of `cs`, in order, on the same
`Mechanism` (recovering from a panic and going on): the list of what each call
left behind. -/
def runSteps {W : Type} (m : Mechanism W) (w : W) : List Bytes → List (StepOut W)
  | [] => []
  | c :: cs => (m.Step c w) :: runSteps (m.Step c w).m (m.Step c w).world cs

/-- The invocation returned (did not panic) with a nil error. -/
def Invocation.returnedNil {W : Type} (i : Invocation W) : Bool :=
  match i.result with
  | .returned _ _ none _ => true
  | _ => false

/-- The state is one of the four declared constants, the `case`s of the `switch`. -/
def knownPhase (s : State) : Prop :=
  s = Initial ∨ s = AuthTextSent ∨ s = ResponseSent ∨ s = ValidServerResponse

instance (s : State) : Decidable (knownPhase s) := by
  unfold knownPhase; infer_instance

/-! ## Concrete mechanisms

The closures' memory is a counter of the invocations made so far. -/

/-- A `Start` closure: answers `(true, "C1", nil)`. -/
def testStart : State → Nat → CallResult Nat :=
  fun _ n => .returned true (some [67, 49]) none (n + 1)

/-- A `Next` closure: answers `(false, "C2", nil)` in state `AuthTextSent` and
`(false, nil, ErrAuthn)` in every other state. -/
def testNext : State → Bytes → Nat → CallResult Nat :=
  fun s _ n =>
    if s = AuthTextSent then .returned false (some [67, 50]) none (n + 1)
    else .returned false none (some .ErrAuthn) (n + 1)

/-- The mechanism named "TEST" with the closures above, its state field set to `s`. -/
def testMech (s : State) : Mechanism Nat :=
  { Name := "TEST", Start := testStart, Next := testNext, state := s, resp := none, err := none }

/-- A `Next` closure that never fails: it echoes the challenge and reports `more`
only on every other invocation. -/
def echoNext : State → Bytes → Nat → CallResult Nat :=
  fun _ c n => .returned (n % 2 == 0) c none (n + 1)

/-- A mechanism whose closures never fail, its state field set to `s`. -/
def echoMech (s : State) : Mechanism Nat :=
  { Name := "ECHO", Start := testStart, Next := echoNext, state := s, resp := none, err := none }

/-- The scenario of "TEST": what `Step(nil)` leaves behind on the fresh mechanism. -/
def testStep1 : StepOut Nat :=
  (testMech Initial).Step none 0

/-- The scenario of "TEST": what the second call, `Step("S1")`, leaves behind. -/
def testStep2 : StepOut Nat :=
  testStep1.m.Step (some [83, 49]) testStep1.world

/-- The scenario of "TEST": what the third call, `Step("S2")`, leaves behind. -/
def testStep3 : StepOut Nat :=
  testStep2.m.Step (some [83, 50]) testStep2.world

/-- A mechanism with the closures, state and stored error of `testMech s`, but another
name and another recorded response. -/
def otherMech (s : State) : Mechanism Nat :=
  { Name := "OTHER", Start := testStart, Next := testNext, state := s, resp := some [120],
    err := none }

/-- A `Next` closure that always fails with `ErrAuthz` and answers the challenge it was
given. -/
def failNext : State → Bytes → Nat → CallResult Nat :=
  fun _ c n => .returned false c (some .ErrAuthz) (n + 1)

/-- A fresh mechanism named `name` with `failNext`, in state `s`. -/
def failMech (name : String) (s : State) : Mechanism Nat :=
  { Name := name, Start := testStart, Next := failNext, state := s, resp := none, err := none }

/-- The mechanism "A" after two calls from fresh, `Step(nil)` and `Step("x")`: the second
call failed with `ErrAuthz` and recorded the response "x". -/
def failedA : Mechanism Nat :=
  (((failMech "A" Initial).Step none 0).m.Step (some [120]) 1).m

/-- The mechanism "B" after two calls from fresh, `Step(nil)` and `Step("y")`: the second
call failed with `ErrAuthz` and recorded the response "y". -/
def failedB : Mechanism Nat :=
  (((failMech "B" Initial).Step none 0).m.Step (some [121]) 1).m

/-- The mechanism "TEST" with state field `s` and the stored error `ErrAuthz`. -/
def refusedMech (s : State) : Mechanism Nat :=
  { testMech s with err := some .ErrAuthz }

/-! ## Closures that hold their `Mechanism`

`Name`, `Start` and `Next` are exported fields, and `Start` and `Next` are closures the
caller writes: a closure that captured the `*Mechanism` it is a field of can assign
these three fields while `Step` is waiting for it. The definitions below repeat
`Mechanism` and `Step` with such closures: every invocation also reports what it
assigned to the receiver. The unexported fields `state`, `resp` and `err` cannot be
assigned field by field from outside the package, and these definitions do not let a
closure assign them. -/

namespace Capturing

/-- What one invocation assigned to the exported fields of the receiver; `none` means
the field was not assigned. -/
structure Assigned (S N : Type) where
  Name : Option String
  Start : Option S
  Next : Option N

mutual
/-- A `Start` closure that may hold the `*Mechanism`: besides returning or panicking it
reports its assignments to the receiver. -/
inductive StartFunc (W : Type) : Type where
  | mk (call : Sasl.State → W → CallResult W × Assigned (StartFunc W) (NextFunc W))
/-- A `Next` closure that may hold the `*Mechanism`. -/
inductive NextFunc (W : Type) : Type where
  | mk (call : Sasl.State → Bytes → W →
      CallResult W × Assigned (StartFunc W) (NextFunc W))
end

/-- Invoking a `Start` closure. -/
def StartFunc.call {W : Type} :
    StartFunc W → Sasl.State → W → CallResult W × Assigned (StartFunc W) (NextFunc W)
  | .mk f => f

/-- Invoking a `Next` closure. -/
def NextFunc.call {W : Type} :
    NextFunc W → Sasl.State → Bytes → W →
      CallResult W × Assigned (StartFunc W) (NextFunc W)
  | .mk f => f

/-- The struct `Mechanism`, its two function fields holding closures of the kind
above. -/
structure Mechanism (W : Type) where
  Name : String
  Start : StartFunc W
  Next : NextFunc W
  state : Sasl.State
  resp : Bytes
  err : Option GoError

/-- The method `func (m *Mechanism) Err() error`. -/
def Mechanism.Err {W : Type} (m : Mechanism W) : Option GoError :=
  m.err

/-- The method `func (m *Mechanism) State() State`. -/
def Mechanism.State {W : Type} (m : Mechanism W) : Sasl.State :=
  m.state

/-- The call `m.Err()` with its pointer receiver made explicit: the value returned and
the `Mechanism` after the call. The body is `return m.err`; it assigns nothing. -/
def Mechanism.callErr {W : Type} (m : Mechanism W) : Option GoError × Mechanism W :=
  (m.err, m)

/-- The call `m.State()` with its pointer receiver made explicit: the value returned and
the `Mechanism` after the call. The body is `return m.state`; it assigns nothing. -/
def Mechanism.callState {W : Type} (m : Mechanism W) : Sasl.State × Mechanism W :=
  (m.state, m)

/-- The receiver as an invocation with the assignments `a` leaves it. -/
def Mechanism.assigned {W : Type} (m : Mechanism W)
    (a : Assigned (StartFunc W) (NextFunc W)) : Mechanism W :=
  { m with
    Name := a.Name.getD m.Name
    Start := a.Start.getD m.Start
    Next := a.Next.getD m.Next }

/-- One invocation made by `Step`: which closure with which arguments, what the closure
did, and what it assigned to the receiver. -/
structure Invocation (W : Type) where
  call : Call
  result : CallResult W
  assigned : Assigned (StartFunc W) (NextFunc W)

/-- Everything one call of `Step` leaves behind. -/
structure StepOut (W : Type) where
  result : StepResult
  m : Mechanism W
  world : W
  calls : List (Invocation W)

/-- The method `func (m *Mechanism) Step(challenge []byte) (more bool, err error)`.
The function value `m.Start` or `m.Next` and the argument `m.state` are read before the
invocation; the invocation may assign the exported fields of `*m`; then, when it
returned, `Step` assigns `m.resp`, `m.err` and, in the first three cases, `m.state`. -/
def Mechanism.Step {W : Type} (m : Mechanism W) (challenge : Bytes) (w : W) : StepOut W :=
  match m.Err with
  | some e => ⟨.panicked (.error e), m, w, []⟩
  | none =>
    if m.state = Initial then
      match m.Start.call m.state w with
      | (.panicked v w1, a) =>
        ⟨.panicked v, m.assigned a, w1, [⟨.Start m.state, .panicked v w1, a⟩]⟩
      | (.returned more resp err w1, a) =>
        let m0 : Mechanism W := m.assigned a
        let m1 : Mechanism W := { m0 with resp := resp, err := err }
        let m2 : Mechanism W := { m1 with state := AuthTextSent }
        ⟨.returned more m2.err, m2, w1, [⟨.Start m.state, .returned more resp err w1, a⟩]⟩
    else if m.state = AuthTextSent then
      match m.Next.call m.state challenge w with
      | (.panicked v w1, a) =>
        ⟨.panicked v, m.assigned a, w1, [⟨.Next m.state challenge, .panicked v w1, a⟩]⟩
      | (.returned more resp err w1, a) =>
        let m0 : Mechanism W := m.assigned a
        let m1 : Mechanism W := { m0 with resp := resp, err := err }
        let m2 : Mechanism W := { m1 with state := ResponseSent }
        ⟨.returned more m2.err, m2, w1,
          [⟨.Next m.state challenge, .returned more resp err w1, a⟩]⟩
    else if m.state = ResponseSent then
      match m.Next.call m.state challenge w with
      | (.panicked v w1, a) =>
        ⟨.panicked v, m.assigned a, w1, [⟨.Next m.state challenge, .panicked v w1, a⟩]⟩
      | (.returned more resp err w1, a) =>
        let m0 : Mechanism W := m.assigned a
        let m1 : Mechanism W := { m0 with resp := resp, err := err }
        let m2 : Mechanism W := { m1 with state := ValidServerResponse }
        ⟨.returned more m2.err, m2, w1,
          [⟨.Next m.state challenge, .returned more resp err w1, a⟩]⟩
    else if m.state = ValidServerResponse then
      match m.Next.call m.state challenge w with
      | (.panicked v w1, a) =>
        ⟨.panicked v, m.assigned a, w1, [⟨.Next m.state challenge, .panicked v w1, a⟩]⟩
      | (.returned more resp err w1, a) =>
        let m0 : Mechanism W := m.assigned a
        let m1 : Mechanism W := { m0 with resp := resp, err := err }
        ⟨.returned more m1.err, m1, w1,
          [⟨.Next m.state challenge, .returned more resp err w1, a⟩]⟩
    else
      ⟨.returned false (some .ErrInvalidState), m, w, []⟩

/-- A `Start` closure that does not hold the `Mechanism`: it assigns nothing. -/
def ofStart {W : Type} (f : Sasl.State → W → CallResult W) : StartFunc W :=
  .mk (fun s w => (f s w, ⟨none, none, none⟩))

/-- A `Next` closure that does not hold the `Mechanism`: it assigns nothing. -/
def ofNext {W : Type} (f : Sasl.State → Bytes → W → CallResult W) : NextFunc W :=
  .mk (fun s c w => (f s c w, ⟨none, none, none⟩))

/-- A `Mechanism` none of whose closures holds it. -/
def ofMechanism {W : Type} (m : Sasl.Mechanism W) : Mechanism W :=
  { Name := m.Name, Start := ofStart m.Start, Next := ofNext m.Next,
    state := m.state, resp := m.resp, err := m.err }

/-- An invocation of a closure that does not hold the `Mechanism`. -/
def ofInvocation {W : Type} (i : Sasl.Invocation W) : Invocation W :=
  ⟨i.call, i.result, ⟨none, none, none⟩⟩

/-- What `Step` leaves behind when no closure holds the `Mechanism`. -/
def ofStepOut {W : Type} (o : Sasl.StepOut W) : StepOut W :=
  ⟨o.result, ofMechanism o.m, o.world, o.calls.map ofInvocation⟩

/-- A `Start` closure that holds its `Mechanism` `m`: it answers `(true, "C1", nil)`
after `m.Name = "RENAMED"` and `m.Next = <the echoing closure>`. -/
def renamingStart : StartFunc Nat :=
  .mk (fun _ n =>
    (.returned true (some [67, 49]) none (n + 1),
      ⟨some "RENAMED", none, some (ofNext echoNext)⟩))

/-- The fresh mechanism named "TEST" with the renaming `Start`. -/
def renamingMech : Mechanism Nat :=
  { Name := "TEST", Start := renamingStart, Next := ofNext testNext, state := Initial,
    resp := none, err := none }

end Capturing

/-! ## Basic facts about one call of `Step` -/

theorem knownPhase_iff (s : State) : knownPhase s ↔ 0 ≤ s ∧ s ≤ 3 := by
  have key : ∀ t : Int, (t = 0 ∨ t = 1 ∨ t = 2 ∨ t = 3) ↔ 0 ≤ t ∧ t ≤ 3 := by
    intro t; omega
  exact key s

theorem Step_stored_err {W : Type} (m : Mechanism W) (c : Bytes) (w : W) (e : GoError)
    (h : m.err = some e) : m.Step c w = ⟨.panicked (.error e), m, w, []⟩ := by
  simp [Mechanism.Step, Mechanism.Err, h]

theorem Step_out_of_range {W : Type} (m : Mechanism W) (c : Bytes) (w : W)
    (h : m.err = none) (hs : ¬ knownPhase m.state) :
    m.Step c w = ⟨.returned false (some .ErrInvalidState), m, w, []⟩ := by
  simp only [knownPhase, not_or] at hs
  simp [Mechanism.Step, Mechanism.Err, h, hs]

theorem Step_Initial {W : Type} (m : Mechanism W) (c : Bytes) (w : W)
    (h : m.err = none) (hs : m.state = Initial) :
    m.Step c w =
      match m.Start Initial w with
      | .panicked v w1 => ⟨.panicked v, m, w1, [⟨.Start Initial, .panicked v w1⟩]⟩
      | .returned more resp err w1 =>
        ⟨.returned more err, { m with resp := resp, err := err, state := AuthTextSent }, w1,
          [⟨.Start Initial, .returned more resp err w1⟩]⟩ := by
  simp only [Mechanism.Step, Mechanism.Err, h, hs, if_true]

theorem Step_AuthTextSent {W : Type} (m : Mechanism W) (c : Bytes) (w : W)
    (h : m.err = none) (hs : m.state = AuthTextSent) :
    m.Step c w =
      match m.Next AuthTextSent c w with
      | .panicked v w1 => ⟨.panicked v, m, w1, [⟨.Next AuthTextSent c, .panicked v w1⟩]⟩
      | .returned more resp err w1 =>
        ⟨.returned more err, { m with resp := resp, err := err, state := ResponseSent }, w1,
          [⟨.Next AuthTextSent c, .returned more resp err w1⟩]⟩ := by
  have h0 : ¬ AuthTextSent = Initial := by decide
  simp only [Mechanism.Step, Mechanism.Err, h, hs, h0, if_true, if_false]

theorem Step_ResponseSent {W : Type} (m : Mechanism W) (c : Bytes) (w : W)
    (h : m.err = none) (hs : m.state = ResponseSent) :
    m.Step c w =
      match m.Next ResponseSent c w with
      | .panicked v w1 => ⟨.panicked v, m, w1, [⟨.Next ResponseSent c, .panicked v w1⟩]⟩
      | .returned more resp err w1 =>
        ⟨.returned more err,
          { m with resp := resp, err := err, state := ValidServerResponse }, w1,
          [⟨.Next ResponseSent c, .returned more resp err w1⟩]⟩ := by
  have h0 : ¬ ResponseSent = Initial := by decide
  have h1 : ¬ ResponseSent = AuthTextSent := by decide
  simp only [Mechanism.Step, Mechanism.Err, h, hs, h0, h1, if_true, if_false]

theorem Step_ValidServerResponse {W : Type} (m : Mechanism W) (c : Bytes) (w : W)
    (h : m.err = none) (hs : m.state = ValidServerResponse) :
    m.Step c w =
      match m.Next ValidServerResponse c w with
      | .panicked v w1 =>
        ⟨.panicked v, m, w1, [⟨.Next ValidServerResponse c, .panicked v w1⟩]⟩
      | .returned more resp err w1 =>
        ⟨.returned more err, { m with resp := resp, err := err }, w1,
          [⟨.Next ValidServerResponse c, .returned more resp err w1⟩]⟩ := by
  have h0 : ¬ ValidServerResponse = Initial := by decide
  have h1 : ¬ ValidServerResponse = AuthTextSent := by decide
  have h2 : ¬ ValidServerResponse = ResponseSent := by decide
  simp only [Mechanism.Step, Mechanism.Err, h, hs, h0, h1, h2, if_true, if_false]

theorem runSteps_length {W : Type} (m : Mechanism W) (w : W) (cs : List Bytes) :
    (runSteps m w cs).length = cs.length := by
  induction cs generalizing m w with
  | nil => rfl
  | cons c cs ih => simp [runSteps, ih]

/-- With a nil stored error and a known state, `Step` makes exactly one invocation;
when that invocation panics the panic leaves `Step` with the `Mechanism` untouched, and
when it returns `(more, resp, err)` the call returns `(more, err)`, stores `resp` and
`err`, keeps the three exported fields and moves the state one phase up, stopping at
`ValidServerResponse`. -/
theorem Step_known {W : Type} (m : Mechanism W) (c : Bytes) (w : W)
    (h : m.err = none) (hs : knownPhase m.state) :
    ∃ call r, (m.Step c w).calls = [⟨call, r⟩] ∧
      ((∃ v w1, r = .panicked v w1 ∧ (m.Step c w).result = .panicked v ∧
          (m.Step c w).m = m ∧ (m.Step c w).world = w1) ∨
       (∃ more resp err w1, r = .returned more resp err w1 ∧
          (m.Step c w).result = .returned more err ∧
          (m.Step c w).m.err = err ∧ (m.Step c w).m.resp = resp ∧
          (m.Step c w).world = w1 ∧
          (m.Step c w).m.state = min (m.state + 1) 3 ∧
          (m.Step c w).m.Name = m.Name ∧ (m.Step c w).m.Start = m.Start ∧
          (m.Step c w).m.Next = m.Next)) := by
  rcases hs with hs | hs | hs | hs
  · rw [Step_Initial m c w h hs]
    cases hr : m.Start Initial w with
    | panicked v w1 => exact ⟨_, _, rfl, Or.inl ⟨v, w1, rfl, rfl, rfl, rfl⟩⟩
    | returned more resp err w1 =>
      exact ⟨_, _, rfl, Or.inr ⟨more, resp, err, w1, rfl, rfl, rfl, rfl, rfl,
        by rw [hs]; rfl, rfl, rfl, rfl⟩⟩
  · rw [Step_AuthTextSent m c w h hs]
    cases hr : m.Next AuthTextSent c w with
    | panicked v w1 => exact ⟨_, _, rfl, Or.inl ⟨v, w1, rfl, rfl, rfl, rfl⟩⟩
    | returned more resp err w1 =>
      exact ⟨_, _, rfl, Or.inr ⟨more, resp, err, w1, rfl, rfl, rfl, rfl, rfl,
        by rw [hs]; rfl, rfl, rfl, rfl⟩⟩
  · rw [Step_ResponseSent m c w h hs]
    cases hr : m.Next ResponseSent c w with
    | panicked v w1 => exact ⟨_, _, rfl, Or.inl ⟨v, w1, rfl, rfl, rfl, rfl⟩⟩
    | returned more resp err w1 =>
      exact ⟨_, _, rfl, Or.inr ⟨more, resp, err, w1, rfl, rfl, rfl, rfl, rfl,
        by rw [hs]; rfl, rfl, rfl, rfl⟩⟩
  · rw [Step_ValidServerResponse m c w h hs]
    cases hr : m.Next ValidServerResponse c w with
    | panicked v w1 => exact ⟨_, _, rfl, Or.inl ⟨v, w1, rfl, rfl, rfl, rfl⟩⟩
    | returned more resp err w1 =>
      exact ⟨_, _, rfl, Or.inr ⟨more, resp, err, w1, rfl, rfl, rfl, rfl, rfl,
        by rw [hs]; rfl, rfl, rfl, rfl⟩⟩

/-- With a nil stored error and a known state, when every invocation made by `Step`
returns a nil error, the stored error stays nil, the state moves one phase up (stopping
at `ValidServerResponse`) and `Step` returns a nil error. -/
theorem Step_ok {W : Type} (m : Mechanism W) (c : Bytes) (w : W)
    (h : m.err = none) (hs : knownPhase m.state)
    (hok : ∀ i ∈ (m.Step c w).calls, i.returnedNil = true) :
    (m.Step c w).m.err = none ∧ (m.Step c w).m.state = min (m.state + 1) 3 ∧
    ∃ more, (m.Step c w).result = .returned more none := by
  obtain ⟨call, r, hcalls, hr⟩ := Step_known m c w h hs
  have hnilr := hok ⟨call, r⟩ (by rw [hcalls]; exact List.mem_singleton.2 rfl)
  rcases hr with ⟨v, w2, hv, -⟩ | ⟨more2, resp2, err2, w2, hret, hres, herr, -, -, hst, -⟩
  · rw [hv] at hnilr; exact absurd hnilr (by simp [Invocation.returnedNil])
  · rw [hret] at hnilr
    cases err2 with
    | some e => exact absurd hnilr (by simp [Invocation.returnedNil])
    | none => exact ⟨herr, hst, more2, hres⟩

/-- One phase up from a known state, stopping at `ValidServerResponse`, is a known
state. -/
theorem knownPhase_next (s : State) (hs : knownPhase s) : knownPhase (min (s + 1) 3) := by
  have key : ∀ t : Int, 0 ≤ t ∧ t ≤ 3 → 0 ≤ min (t + 1) 3 ∧ min (t + 1) 3 ≤ 3 := by
    intro t ht; omega
  exact (knownPhase_iff _).2 (key s ((knownPhase_iff s).1 hs))

/-- A run from a known state with a nil stored error in which every invocation returns
a nil error: no call panics or returns an error, and the state after the call number
`k + 1` is `k + 1` phases up, stopping at `ValidServerResponse`. -/
theorem runSteps_ok {W : Type} (cs : List Bytes) (m : Mechanism W) (w : W)
    (h : m.err = none) (hs : knownPhase m.state)
    (hok : ∀ o ∈ runSteps m w cs, ∀ i ∈ o.calls, i.returnedNil = true) :
    (runSteps m w cs).map (fun o => o.m.state)
      = (List.range cs.length).map (fun (k : Nat) => min (m.state + ((k : Int) + 1)) 3) ∧
    ∀ o ∈ runSteps m w cs, ∃ more, o.result = .returned more none := by
  induction cs generalizing m w with
  | nil => exact ⟨rfl, fun o ho => absurd ho (List.not_mem_nil o)⟩
  | cons c cs ih =>
    obtain ⟨he, hst, hres⟩ :=
      Step_ok m c w h hs (fun i hi => hok _ (List.mem_cons_self _ _) i hi)
    have hs1 : knownPhase (m.Step c w).m.state := by
      rw [hst]; exact knownPhase_next _ hs
    obtain ⟨ih1, ih2⟩ := ih (m.Step c w).m (m.Step c w).world he hs1
      (fun o ho => hok o (List.mem_cons_of_mem _ ho))
    constructor
    · have key : ∀ (t : Int) (k : Nat),
          min (min (t + 1) 3 + ((k : Int) + 1)) 3 = min (t + (((k + 1 : Nat) : Int) + 1)) 3 := by
        intro t k; omega
      simp only [runSteps, List.map_cons, List.length_cons, List.range_succ_eq_map,
        List.map_map, ih1, hst]
      refine congrArg₂ List.cons (by simp) ?_
      apply List.map_congr_left
      intro k _
      exact key m.state k
    · intro o ho
      rcases List.mem_cons.1 ho with rfl | ho
      · exact hres
      · exact ih2 o ho

/-- Once the stored error is non-nil, every call of `Step` panics with it and changes
nothing. -/
theorem runSteps_stored_err {W : Type} (cs : List Bytes) (m : Mechanism W) (w : W)
    (e : GoError) (h : m.err = some e) :
    runSteps m w cs = cs.map (fun _ => ⟨.panicked (.error e), m, w, []⟩) := by
  induction cs with
  | nil => rfl
  | cons c cs ih => simp only [runSteps, Step_stored_err m c w e h, ih, List.map_cons]

/-- With a nil stored error and a state outside the known phases, every call of `Step`
returns `(false, ErrInvalidState)` and changes nothing. -/
theorem runSteps_out_of_range {W : Type} (cs : List Bytes) (m : Mechanism W) (w : W)
    (h : m.err = none) (hs : ¬ knownPhase m.state) :
    runSteps m w cs
      = cs.map (fun _ => ⟨.returned false (some .ErrInvalidState), m, w, []⟩) := by
  induction cs with
  | nil => rfl
  | cons c cs ih => simp only [runSteps, Step_out_of_range m c w h hs, ih, List.map_cons]

/-- A run from `ValidServerResponse` with a nil stored error in which every invocation
returns a nil error: call number `i` invokes `Next(ValidServerResponse, c_i)` and
nothing else, returns a nil error, and leaves the state at `ValidServerResponse`. -/
theorem runSteps_ValidServerResponse {W : Type} (cs : List Bytes) (m : Mechanism W) (w : W)
    (h : m.err = none) (hs : m.state = ValidServerResponse)
    (hok : ∀ o ∈ runSteps m w cs, ∀ i ∈ o.calls, i.returnedNil = true) :
    (runSteps m w cs).map (fun o => o.calls.map Invocation.call)
      = cs.map (fun c => [Call.Next ValidServerResponse c]) ∧
    ∀ o ∈ runSteps m w cs,
      o.m.state = ValidServerResponse ∧ ∃ more, o.result = .returned more none := by
  induction cs generalizing m w with
  | nil => exact ⟨rfl, fun o ho => absurd ho (List.not_mem_nil o)⟩
  | cons c cs ih =>
    obtain ⟨he, hst, hres⟩ := Step_ok m c w h (Or.inr (Or.inr (Or.inr hs)))
      (fun i hi => hok _ (List.mem_cons_self _ _) i hi)
    have hst1 : (m.Step c w).m.state = ValidServerResponse := by
      rw [hst, hs]; rfl
    have hcall : (m.Step c w).calls.map Invocation.call
        = [Call.Next ValidServerResponse c] := by
      rw [Step_ValidServerResponse m c w h hs]
      cases m.Next ValidServerResponse c w <;> rfl
    obtain ⟨ih1, ih2⟩ := ih (m.Step c w).m (m.Step c w).world he hst1
      (fun o ho => hok o (List.mem_cons_of_mem _ ho))
    constructor
    · simp only [runSteps, List.map_cons, ih1, hcall]
    · intro o ho
      rcases List.mem_cons.1 ho with rfl | ho
      · exact ⟨hst1, hres⟩
      · exact ih2 o ho

/-! ## Claims about one call of `Step` -/

/-- C3. With a nil stored error, `Step` follows the dispatch table: at `Initial` its
only invocation is `Start(Initial)`, at `AuthTextSent`, `ResponseSent` and
`ValidServerResponse` its only invocation is `Next(state, challenge)`; and whenever the
invoked closure returns, with a nil or a non-nil error, the state afterwards is
`AuthTextSent`, `ResponseSent`, `ValidServerResponse` and `ValidServerResponse`
respectively. -/
theorem Step_dispatch_table {W : Type} (m : Mechanism W) (challenge : Bytes) (w : W)
    (hnil : m.Err = none) :
    (m.state = Initial →
      (m.Step challenge w).calls = [⟨.Start Initial, m.Start Initial w⟩] ∧
      ∀ more resp err w1, m.Start Initial w = .returned more resp err w1 →
        (m.Step challenge w).m.State = AuthTextSent) ∧
    (m.state = AuthTextSent →
      (m.Step challenge w).calls =
        [⟨.Next AuthTextSent challenge, m.Next AuthTextSent challenge w⟩] ∧
      ∀ more resp err w1, m.Next AuthTextSent challenge w = .returned more resp err w1 →
        (m.Step challenge w).m.State = ResponseSent) ∧
    (m.state = ResponseSent →
      (m.Step challenge w).calls =
        [⟨.Next ResponseSent challenge, m.Next ResponseSent challenge w⟩] ∧
      ∀ more resp err w1, m.Next ResponseSent challenge w = .returned more resp err w1 →
        (m.Step challenge w).m.State = ValidServerResponse) ∧
    (m.state = ValidServerResponse →
      (m.Step challenge w).calls =
        [⟨.Next ValidServerResponse challenge, m.Next ValidServerResponse challenge w⟩] ∧
      ∀ more resp err w1,
        m.Next ValidServerResponse challenge w = .returned more resp err w1 →
        (m.Step challenge w).m.State = ValidServerResponse) := by
  have hnil1 : m.err = none := hnil
  refine ⟨fun hs => ?_, fun hs => ?_, fun hs => ?_, fun hs => ?_⟩
  · rw [Step_Initial m challenge w hnil1 hs]
    cases hr : m.Start Initial w <;> simp [Mechanism.State]
  · rw [Step_AuthTextSent m challenge w hnil1 hs]
    cases hr : m.Next AuthTextSent challenge w <;> simp [Mechanism.State]
  · rw [Step_ResponseSent m challenge w hnil1 hs]
    cases hr : m.Next ResponseSent challenge w <;> simp [Mechanism.State]
  · rw [Step_ValidServerResponse m challenge w hnil1 hs]
    cases hr : m.Next ValidServerResponse challenge w <;> simp [Mechanism.State, hs]

/-- The dispatch table at the mechanism "TEST", once in each of the four states. -/
theorem Step_dispatch_table_witness :
    (testMech Initial).Err = none ∧
    ((testMech Initial).Step (some [83, 49]) 0).calls
      = [⟨.Start Initial, testStart Initial 0⟩] ∧
    ((testMech Initial).Step (some [83, 49]) 0).m.State = AuthTextSent ∧
    ((testMech AuthTextSent).Step (some [83, 49]) 1).calls
      = [⟨.Next AuthTextSent (some [83, 49]), testNext AuthTextSent (some [83, 49]) 1⟩] ∧
    ((testMech AuthTextSent).Step (some [83, 49]) 1).m.State = ResponseSent ∧
    ((testMech ResponseSent).Step (some [83, 50]) 2).calls
      = [⟨.Next ResponseSent (some [83, 50]), testNext ResponseSent (some [83, 50]) 2⟩] ∧
    ((testMech ResponseSent).Step (some [83, 50]) 2).m.State = ValidServerResponse ∧
    ((testMech ValidServerResponse).Step none 3).calls
      = [⟨.Next ValidServerResponse none, testNext ValidServerResponse none 3⟩] ∧
    ((testMech ValidServerResponse).Step none 3).m.State = ValidServerResponse :=
  ⟨rfl,
   ((Step_dispatch_table (testMech Initial) (some [83, 49]) 0 rfl).1 rfl).1,
   ((Step_dispatch_table (testMech Initial) (some [83, 49]) 0 rfl).1 rfl).2 _ _ _ _ rfl,
   ((Step_dispatch_table (testMech AuthTextSent) (some [83, 49]) 1 rfl).2.1 rfl).1,
   ((Step_dispatch_table (testMech AuthTextSent) (some [83, 49]) 1 rfl).2.1 rfl).2 _ _ _ _ rfl,
   ((Step_dispatch_table (testMech ResponseSent) (some [83, 50]) 2 rfl).2.2.1 rfl).1,
   ((Step_dispatch_table (testMech ResponseSent) (some [83, 50]) 2 rfl).2.2.1 rfl).2
     _ _ _ _ rfl,
   ((Step_dispatch_table (testMech ValidServerResponse) none 3 rfl).2.2.2 rfl).1,
   ((Step_dispatch_table (testMech ValidServerResponse) none 3 rfl).2.2.2 rfl).2
     _ _ _ _ rfl⟩

/-- C4. With a nil stored error and a known state, when the closure invoked by `Step`
returns `(more, resp, err)`, `Step` returns exactly `(more, err)`, `Err()` afterwards is
`err` and the recorded response is `resp`, also when `err` is non-nil. -/
theorem Step_returns_callback_values {W : Type} (m : Mechanism W) (challenge : Bytes)
    (w : W) (call : Call) (more : Bool) (resp : Bytes) (err : Option GoError) (w1 : W)
    (hnil : m.Err = none) (hs : knownPhase m.state)
    (hcb : (m.Step challenge w).calls = [⟨call, .returned more resp err w1⟩]) :
    (m.Step challenge w).result = .returned more err ∧
    (m.Step challenge w).m.Err = err ∧
    (m.Step challenge w).m.resp = resp := by
  obtain ⟨call1, r, hcalls, hr⟩ := Step_known m challenge w hnil hs
  rw [hcalls] at hcb
  simp only [List.cons.injEq, Invocation.mk.injEq, and_true] at hcb
  rcases hr with ⟨v, w2, hv, -⟩ | ⟨more2, resp2, err2, w2, hret, hres, herr, hresp, -⟩
  · rw [hv] at hcb; exact absurd hcb.2 (by simp)
  · rw [hret] at hcb
    simp only [CallResult.returned.injEq] at hcb
    obtain ⟨-, h1, h2, h3, -⟩ := hcb
    subst h1 h2 h3
    exact ⟨hres, herr, hresp⟩

/-- The third step of "TEST": `Next` returns `(false, nil, ErrAuthn)`, and so does
`Step`. -/
theorem Step_returns_callback_values_witness :
    (testMech ResponseSent).Err = none ∧ knownPhase (testMech ResponseSent).state ∧
    ((testMech ResponseSent).Step (some [83, 50]) 2).calls
      = [⟨.Next ResponseSent (some [83, 50]), .returned false none (some .ErrAuthn) 3⟩] ∧
    ((testMech ResponseSent).Step (some [83, 50]) 2).result
      = .returned false (some .ErrAuthn) ∧
    ((testMech ResponseSent).Step (some [83, 50]) 2).m.Err = some .ErrAuthn ∧
    ((testMech ResponseSent).Step (some [83, 50]) 2).m.resp = none :=
  ⟨rfl, by decide, rfl,
    Step_returns_callback_values (testMech ResponseSent) (some [83, 50]) 2
      (.Next ResponseSent (some [83, 50])) false none (some .ErrAuthn) 3 rfl (by decide) rfl⟩

/-- C5. On a fresh `Mechanism` (state `Initial`, nil stored error) the challenge has no
influence: for any two challenges, each `Step` makes exactly one invocation,
`Start(Initial)`, none of `Next`, and the two calls end the same way and leave the
same `Mechanism`. -/
theorem first_Step_ignores_challenge {W : Type} (m : Mechanism W) (c1 c2 : Bytes) (w : W)
    (hs : m.state = Initial) (hnil : m.Err = none) :
    (m.Step c1 w).calls = [⟨.Start Initial, m.Start Initial w⟩] ∧
    (m.Step c2 w).calls = [⟨.Start Initial, m.Start Initial w⟩] ∧
    m.Step c1 w = m.Step c2 w := by
  rw [Step_Initial m c1 w hnil hs, Step_Initial m c2 w hnil hs]
  cases m.Start Initial w <;> exact ⟨rfl, rfl, rfl⟩

/-- The first step of "TEST" with the nil challenge and with the challenge "S1". -/
theorem first_Step_ignores_challenge_witness :
    (testMech Initial).state = Initial ∧ (testMech Initial).Err = none ∧
    ((testMech Initial).Step none 0).calls = [⟨.Start Initial, testStart Initial 0⟩] ∧
    ((testMech Initial).Step (some [83, 49]) 0).calls
      = [⟨.Start Initial, testStart Initial 0⟩] ∧
    (testMech Initial).Step none 0 = (testMech Initial).Step (some [83, 49]) 0 :=
  ⟨rfl, rfl, first_Step_ignores_challenge (testMech Initial) none (some [83, 49]) 0 rfl rfl⟩

/-- C6. With a nil stored error and a state field outside the four known phases
(negative values included), `Step` returns `(false, ErrInvalidState)`, invokes neither
`Start` nor `Next`, and leaves the state field as it was. -/
theorem Step_invalid_state {W : Type} (m : Mechanism W) (challenge : Bytes) (w : W)
    (hnil : m.Err = none) (hs : ¬ knownPhase m.state) :
    (m.Step challenge w).result = .returned false (some .ErrInvalidState) ∧
    (m.Step challenge w).calls = [] ∧
    (m.Step challenge w).m.state = m.state := by
  rw [Step_out_of_range m challenge w hnil hs]
  exact ⟨rfl, rfl, rfl⟩

/-- The mechanism "TEST" with its state field forced to `-7`. -/
theorem Step_invalid_state_witness :
    (testMech (-7)).Err = none ∧ ¬ knownPhase (testMech (-7)).state ∧
    ((testMech (-7)).Step (some [83, 49]) 0).result
      = .returned false (some .ErrInvalidState) ∧
    ((testMech (-7)).Step (some [83, 49]) 0).calls = [] ∧
    ((testMech (-7)).Step (some [83, 49]) 0).m.state = (testMech (-7)).state :=
  ⟨rfl, by decide, Step_invalid_state (testMech (-7)) (some [83, 49]) 0 rfl (by decide)⟩

/-- C2. With a nil stored error and a known state, when the closure invoked by `Step`
returns a non-nil error `e`, `Step` returns `e`, `Err()` afterwards is exactly `e`, and
every later call of `Step`, with any challenges, panics (with `e`) instead of
returning. -/
theorem callback_error_is_sticky {W : Type} (m : Mechanism W) (challenge : Bytes) (w : W)
    (call : Call) (more : Bool) (resp : Bytes) (e : GoError) (w1 : W)
    (hnil : m.Err = none) (hs : knownPhase m.state)
    (hcb : (m.Step challenge w).calls = [⟨call, .returned more resp (some e) w1⟩]) :
    (m.Step challenge w).result = .returned more (some e) ∧
    (m.Step challenge w).m.Err = some e ∧
    ∀ (cs : List Bytes) (w2 : W),
      runSteps (m.Step challenge w).m w2 cs
        = cs.map (fun _ => ⟨.panicked (.error e), (m.Step challenge w).m, w2, []⟩) := by
  obtain ⟨call1, r, hcalls, hr⟩ := Step_known m challenge w hnil hs
  rw [hcalls] at hcb
  simp only [List.cons.injEq, Invocation.mk.injEq, and_true] at hcb
  rcases hr with ⟨v, w2, hv, -⟩ | ⟨more2, resp2, err2, w2, hret, hres, herr, -⟩
  · rw [hv] at hcb; exact absurd hcb.2 (by simp)
  · rw [hret] at hcb
    simp only [CallResult.returned.injEq] at hcb
    obtain ⟨-, h1, -, h3, -⟩ := hcb
    subst h1 h3
    exact ⟨hres, herr, fun cs w3 => runSteps_stored_err cs _ w3 e herr⟩

/-- The third step of "TEST" fails with `ErrAuthn`; two more calls both panic. -/
theorem callback_error_is_sticky_witness :
    (testMech ResponseSent).Err = none ∧ knownPhase (testMech ResponseSent).state ∧
    ((testMech ResponseSent).Step (some [83, 50]) 2).calls
      = [⟨.Next ResponseSent (some [83, 50]), .returned false none (some .ErrAuthn) 3⟩] ∧
    ((testMech ResponseSent).Step (some [83, 50]) 2).result
      = .returned false (some .ErrAuthn) ∧
    ((testMech ResponseSent).Step (some [83, 50]) 2).m.Err = some .ErrAuthn ∧
    runSteps ((testMech ResponseSent).Step (some [83, 50]) 2).m 3 [some [83, 51], none]
      = [some [83, 51], none].map (fun _ =>
          ⟨.panicked (.error .ErrAuthn), ((testMech ResponseSent).Step (some [83, 50]) 2).m,
            3, []⟩) :=
  have h := callback_error_is_sticky (testMech ResponseSent) (some [83, 50]) 2
    (.Next ResponseSent (some [83, 50])) false none .ErrAuthn 3 rfl (by decide) rfl
  ⟨rfl, by decide, rfl, h.1, h.2.1, h.2.2 [some [83, 51], none] 3⟩

/-- C7. A non-nil error that `Step` returns should be sticky, as the comment on `Step`
says and as its four `case`s do; the fall-through return is not. At the mechanism
"TEST" with state field `4` and nil stored error `Step` returns the non-nil error
`ErrInvalidState`, yet `Err()` afterwards is still nil and the next `Step` returns
instead of panicking. -/
theorem invalid_state_error_not_sticky :
    (testMech 4).Err = none ∧
    ((testMech 4).Step none 0).result = .returned false (some .ErrInvalidState) ∧
    ((testMech 4).Step none 0).m.Err ≠ some .ErrInvalidState ∧
    (((testMech 4).Step none 0).m.Step none 0).result
      = .returned false (some .ErrInvalidState) :=
  ⟨rfl, rfl, by decide, rfl⟩

/-- In the four `case`s of the `switch` a returned error is sticky: with a nil stored
error and a state among the four known phases, when `Step` returns a non-nil error `e`,
`Err()` afterwards is `e` and the next call of `Step`, with any challenge, panics with
`e`. -/
theorem returned_error_is_sticky {W : Type} (m : Mechanism W) (challenge : Bytes) (w : W)
    (more : Bool) (e : GoError)
    (hnil : m.Err = none) (hs : knownPhase m.state)
    (hret : (m.Step challenge w).result = .returned more (some e)) :
    (m.Step challenge w).m.Err = some e ∧
    ∀ (c2 : Bytes) (w2 : W),
      ((m.Step challenge w).m.Step c2 w2).result = .panicked (.error e) := by
  obtain ⟨call1, r, -, hr⟩ := Step_known m challenge w hnil hs
  rcases hr with ⟨v, w2, -, hres, -⟩ | ⟨more2, resp2, err2, w2, -, hres, herr, -⟩
  · rw [hres] at hret; exact absurd hret (by simp)
  · rw [hres] at hret
    simp only [StepResult.returned.injEq] at hret
    obtain ⟨-, h2⟩ := hret
    subst h2
    exact ⟨herr, fun c2 w3 => by rw [Step_stored_err _ c2 w3 e herr]⟩

/-- The third step of "TEST" returns `ErrAuthn`; the step after it panics. -/
theorem returned_error_is_sticky_witness :
    (testMech ResponseSent).Err = none ∧ knownPhase (testMech ResponseSent).state ∧
    ((testMech ResponseSent).Step (some [83, 50]) 2).result
      = .returned false (some .ErrAuthn) ∧
    ((testMech ResponseSent).Step (some [83, 50]) 2).m.Err = some .ErrAuthn ∧
    (((testMech ResponseSent).Step (some [83, 50]) 2).m.Step (some [83, 51]) 3).result
      = .panicked (.error .ErrAuthn) :=
  have h := returned_error_is_sticky (testMech ResponseSent) (some [83, 50]) 2
    false .ErrAuthn rfl (by decide) rfl
  ⟨rfl, by decide, rfl, h.1, h.2 (some [83, 51]) 3⟩

/-- C8. With a nil stored error and a state field outside the four known phases, the
call of `Step` that returns `(false, ErrInvalidState)` leaves the whole `Mechanism`
(state, recorded response, stored error, `Name`, `Start`, `Next`) as it was, `Err()` is
still nil, and any number of further calls each return `(false, ErrInvalidState)`
again, none panicking, none changing the `Mechanism`. -/
theorem invalid_state_does_not_corrupt {W : Type} (m : Mechanism W) (challenge : Bytes)
    (w : W) (hnil : m.Err = none) (hs : ¬ knownPhase m.state) :
    (m.Step challenge w).result = .returned false (some .ErrInvalidState) ∧
    (m.Step challenge w).m = m ∧
    (m.Step challenge w).m.Err = none ∧
    ∀ (cs : List Bytes) (w2 : W),
      runSteps (m.Step challenge w).m w2 cs
        = cs.map (fun _ => ⟨.returned false (some .ErrInvalidState), m, w2, []⟩) := by
  rw [Step_out_of_range m challenge w hnil hs]
  exact ⟨rfl, rfl, hnil, fun cs w2 => runSteps_out_of_range cs m w2 hnil hs⟩

/-- The mechanism "TEST" with its state field forced to `100`, stepped once and then
three more times. -/
theorem invalid_state_does_not_corrupt_witness :
    (testMech 100).Err = none ∧ ¬ knownPhase (testMech 100).state ∧
    ((testMech 100).Step (some [83, 49]) 0).result
      = .returned false (some .ErrInvalidState) ∧
    ((testMech 100).Step (some [83, 49]) 0).m = testMech 100 ∧
    ((testMech 100).Step (some [83, 49]) 0).m.Err = none ∧
    runSteps ((testMech 100).Step (some [83, 49]) 0).m 0 [none, some [83, 50], none]
      = [none, some [83, 50], none].map
          (fun _ => ⟨.returned false (some .ErrInvalidState), testMech 100, 0, []⟩) :=
  have h := invalid_state_does_not_corrupt (testMech 100) (some [83, 49]) 0 rfl (by decide)
  ⟨rfl, by decide, h.1, h.2.1, h.2.2.1, h.2.2.2 [none, some [83, 50], none] 0⟩

/-- C10. For every `Mechanism` (any state field, known or not, any stored error), any
closures and any challenge: when `Step` returns (does not panic), `State()` afterwards
is at least `State()` before, and exceeds it by at most one. -/
theorem State_nondecreasing {W : Type} (m : Mechanism W) (challenge : Bytes) (w : W)
    (more : Bool) (err : Option GoError)
    (hret : (m.Step challenge w).result = .returned more err) :
    m.State ≤ (m.Step challenge w).m.State ∧
    (m.Step challenge w).m.State ≤ m.State + 1 := by
  have key : ∀ t : Int, 0 ≤ t ∧ t ≤ 3 → t ≤ min (t + 1) 3 ∧ min (t + 1) 3 ≤ t + 1 := by
    intro t ht; omega
  have key0 : ∀ t : Int, t ≤ t ∧ t ≤ t + 1 := by
    intro t; omega
  cases he : m.err with
  | some e =>
    rw [Step_stored_err m challenge w e he] at hret
    exact absurd hret (by simp)
  | none =>
    by_cases hs : knownPhase m.state
    · obtain ⟨call1, r, -, hr⟩ := Step_known m challenge w he hs
      rcases hr with ⟨v, w2, -, hres, -⟩ | ⟨more2, resp2, err2, w2, -, -, -, -, -, hst, -⟩
      · rw [hres] at hret; exact absurd hret (by simp)
      · simp only [Mechanism.State, hst]
        exact key m.state ((knownPhase_iff _).1 hs)
    · rw [Step_out_of_range m challenge w he hs]
      exact key0 m.state

/-- The four known states and two states out of range, one step each. -/
theorem State_nondecreasing_witness :
    ((testMech Initial).Step none 0).result = .returned true none ∧
    ((testMech Initial).State ≤ ((testMech Initial).Step none 0).m.State ∧
      ((testMech Initial).Step none 0).m.State ≤ (testMech Initial).State + 1) ∧
    ((testMech ValidServerResponse).Step none 3).result
      = .returned false (some .ErrAuthn) ∧
    ((testMech ValidServerResponse).State
        ≤ ((testMech ValidServerResponse).Step none 3).m.State ∧
      ((testMech ValidServerResponse).Step none 3).m.State
        ≤ (testMech ValidServerResponse).State + 1) ∧
    ((testMech (-128)).Step none 0).result = .returned false (some .ErrInvalidState) ∧
    ((testMech (-128)).State ≤ ((testMech (-128)).Step none 0).m.State ∧
      ((testMech (-128)).Step none 0).m.State ≤ (testMech (-128)).State + 1) :=
  ⟨rfl, State_nondecreasing (testMech Initial) none 0 true none rfl,
   rfl, State_nondecreasing (testMech ValidServerResponse) none 3 false (some .ErrAuthn) rfl,
   rfl, State_nondecreasing (testMech (-128)) none 0 false (some .ErrInvalidState) rfl⟩

/-! ## Claims about runs of `Step` -/

/-- C9. From state `ValidServerResponse` with a nil stored error, for every finite
sequence of challenges in which each invocation returns a nil error: call number `i`
invokes `Next(ValidServerResponse, c_i)` and nothing else, the state after every call
is still `ValidServerResponse`, and no call panics (each returns a nil error),
whatever `more` values the closure returns. -/
theorem ValidServerResponse_dispatches_forever {W : Type} (m : Mechanism W) (w : W)
    (cs : List Bytes)
    (hs : m.State = ValidServerResponse) (hnil : m.Err = none)
    (hok : ∀ o ∈ runSteps m w cs, ∀ i ∈ o.calls, i.returnedNil = true) :
    (runSteps m w cs).length = cs.length ∧
    (runSteps m w cs).map (fun o => o.calls.map Invocation.call)
      = cs.map (fun c => [Call.Next ValidServerResponse c]) ∧
    ∀ o ∈ runSteps m w cs,
      o.m.State = ValidServerResponse ∧ ∃ more, o.result = .returned more none :=
  ⟨runSteps_length m w cs, runSteps_ValidServerResponse cs m w hnil hs hok⟩

/-- Four steps of the never-failing mechanism from `ValidServerResponse`; its `more`
answers alternate. -/
theorem ValidServerResponse_dispatches_forever_witness :
    (echoMech ValidServerResponse).State = ValidServerResponse ∧
    (echoMech ValidServerResponse).Err = none ∧
    (∀ o ∈ runSteps (echoMech ValidServerResponse) 0 [some [83, 51], none, some [], none],
      ∀ i ∈ o.calls, i.returnedNil = true) ∧
    (runSteps (echoMech ValidServerResponse) 0 [some [83, 51], none, some [], none]).length
      = [some [83, 51], none, some [], (none : Bytes)].length ∧
    (runSteps (echoMech ValidServerResponse) 0 [some [83, 51], none, some [], none]).map
        (fun o => o.calls.map Invocation.call)
      = [some [83, 51], none, some [], none].map
          (fun c => [Call.Next ValidServerResponse c]) ∧
    ∀ o ∈ runSteps (echoMech ValidServerResponse) 0 [some [83, 51], none, some [], none],
      o.m.State = ValidServerResponse ∧ ∃ more, o.result = .returned more none :=
  ⟨rfl, rfl, by decide,
    ValidServerResponse_dispatches_forever (echoMech ValidServerResponse) 0
      [some [83, 51], none, some [], none] rfl rfl (by decide)⟩

/-- C1. From a fresh `Mechanism` (state `Initial`, nil stored error), for every sequence
of `Step` calls in which each invoked closure returns a nil error, `State()` after the
call number `k` is `min k 3`: the states after the calls are `AuthTextSent`,
`ResponseSent`, `ValidServerResponse`, `ValidServerResponse`, ... (entry `k` of the
list, counted from zero, is the state after call number `k + 1`). -/
theorem fresh_phases_in_order {W : Type} (m : Mechanism W) (w : W) (cs : List Bytes)
    (hs : m.State = Initial) (hnil : m.Err = none)
    (hok : ∀ o ∈ runSteps m w cs, ∀ i ∈ o.calls, i.returnedNil = true) :
    (runSteps m w cs).map (fun o => o.m.State)
      = (List.range cs.length).map (fun (k : Nat) => min ((k : Int) + 1) 3) := by
  have h := (runSteps_ok cs m w hnil (Or.inl hs) hok).1
  have hs0 : m.state = 0 := hs
  simpa only [Mechanism.State, hs0, zero_add] using h

/-- Five steps of the never-failing mechanism from `Initial`. -/
theorem fresh_phases_in_order_witness :
    (echoMech Initial).State = Initial ∧ (echoMech Initial).Err = none ∧
    (∀ o ∈ runSteps (echoMech Initial) 0 [none, some [83, 49], some [83, 50], none, some []],
      ∀ i ∈ o.calls, i.returnedNil = true) ∧
    (runSteps (echoMech Initial) 0 [none, some [83, 49], some [83, 50], none, some []]).map
        (fun o => o.m.State)
      = [AuthTextSent, ResponseSent, ValidServerResponse, ValidServerResponse,
          ValidServerResponse] :=
  ⟨rfl, rfl, by decide,
    fresh_phases_in_order (echoMech Initial) 0
      [none, some [83, 49], some [83, 50], none, some []] rfl rfl (by decide)⟩

/-! ## The scenario "TEST" -/

/-- C11. The mechanism named "TEST", whose `Start` returns `(true, "C1", nil)` and whose
`Next` returns `(false, "C2", nil)` in state `AuthTextSent` and `(false, nil, ErrAuthn)`
in state `ResponseSent`: `Step(nil)` returns `(true, nil)` and leaves response "C1" and
state `AuthTextSent`; `Step("S1")` returns `(false, nil)` and leaves response "C2" and
state `ResponseSent`; `Step("S2")` returns `(false, ErrAuthn)` and leaves state
`ValidServerResponse` and `Err() = ErrAuthn`; a fourth `Step` panics, whatever the
challenge. -/
theorem TEST_scenario :
    (testMech Initial).Name = "TEST" ∧
    testStep1.calls = [⟨.Start Initial, .returned true (some [67, 49]) none 1⟩] ∧
    testStep1.result = .returned true none ∧
    testStep1.m.resp = some [67, 49] ∧
    testStep1.m.State = AuthTextSent ∧
    testStep2.calls
      = [⟨.Next AuthTextSent (some [83, 49]), .returned false (some [67, 50]) none 2⟩] ∧
    testStep2.result = .returned false none ∧
    testStep2.m.resp = some [67, 50] ∧
    testStep2.m.State = ResponseSent ∧
    testStep3.calls
      = [⟨.Next ResponseSent (some [83, 50]), .returned false none (some .ErrAuthn) 3⟩] ∧
    testStep3.result = .returned false (some .ErrAuthn) ∧
    testStep3.m.State = ValidServerResponse ∧
    testStep3.m.Err = some .ErrAuthn ∧
    ∀ (challenge : Bytes) (w : Nat),
      (testStep3.m.Step challenge w).result = .panicked (.error .ErrAuthn) ∧
      (testStep3.m.Step challenge w).calls = [] :=
  ⟨rfl, rfl, rfl, rfl, rfl, rfl, rfl, rfl, rfl, rfl, rfl, rfl, rfl,
    fun challenge w => by
      rw [Step_stored_err testStep3.m challenge w .ErrAuthn rfl]
      exact ⟨rfl, rfl⟩⟩

/-! ## The states a run can reach -/

/-- From a known state, whatever the stored error and whatever the closures do, `Step`
leaves a known state; and when it returns `(more, err)`, it made exactly one invocation
and that invocation returned `more` and `err`. -/
theorem Step_preserves_known {W : Type} (m : Mechanism W) (c : Bytes) (w : W)
    (hs : knownPhase m.state) :
    knownPhase (m.Step c w).m.state ∧
    ∀ more err, (m.Step c w).result = .returned more err →
      ∃ call resp w1, (m.Step c w).calls = [⟨call, .returned more resp err w1⟩] := by
  cases he : m.err with
  | some e =>
    rw [Step_stored_err m c w e he]
    exact ⟨hs, fun more err h => absurd h (by simp)⟩
  | none =>
    obtain ⟨call, r, hcalls, hr⟩ := Step_known m c w he hs
    rcases hr with ⟨v, w2, -, hres, hm, -⟩ | ⟨more2, resp2, err2, w2, hret, hres, -, -, -, hst, -⟩
    · refine ⟨by rw [hm]; exact hs, fun more err h => ?_⟩
      rw [hres] at h; exact absurd h (by simp)
    · refine ⟨by rw [hst]; exact knownPhase_next _ hs, fun more err h => ?_⟩
      rw [hres] at h
      simp only [StepResult.returned.injEq] at h
      obtain ⟨h1, h2⟩ := h
      subst h1 h2
      exact ⟨call, resp2, w2, by rw [hcalls, hret]⟩

/-- In a run from a known state every call leaves a known state, and every call that
returns made exactly one invocation, which returned what `Step` returned. -/
theorem runSteps_known {W : Type} (cs : List Bytes) (m : Mechanism W) (w : W)
    (hs : knownPhase m.state) :
    ∀ o ∈ runSteps m w cs,
      knownPhase o.m.state ∧
      ∀ more err, o.result = .returned more err →
        ∃ call resp w1, o.calls = [⟨call, .returned more resp err w1⟩] := by
  induction cs generalizing m w with
  | nil => exact fun o ho => absurd ho (List.not_mem_nil o)
  | cons c cs ih =>
    intro o ho
    rcases List.mem_cons.1 ho with rfl | ho
    · exact Step_preserves_known m c w hs
    · exact ih (m.Step c w).m (m.Step c w).world (Step_preserves_known m c w hs).1 o ho

/-- C12. The invalid-state branch cannot be reached from a fresh `Mechanism` (state
`Initial`, nil stored error): for all closures and every finite sequence of `Step`
calls, the state after every call is one of the four known phases, and every call that
returns `(more, err)` made exactly one invocation, which itself returned `more` and
`err`; so the final `return false, ErrInvalidState`, which makes no invocation, is
never executed, and an `ErrInvalidState` that `Step` returns was returned by a
closure. -/
theorem invalid_state_unreachable {W : Type} (m : Mechanism W) (w : W) (cs : List Bytes)
    (hs : m.State = Initial) (hnil : m.Err = none) :
    (runSteps m w cs).length = cs.length ∧
    ∀ o ∈ runSteps m w cs,
      knownPhase o.m.State ∧
      ∀ more err, o.result = .returned more err →
        o.calls ≠ [] ∧
        ∃ call resp w1, o.calls = [⟨call, .returned more resp err w1⟩] := by
  have _ := hnil
  refine ⟨runSteps_length m w cs, fun o ho => ?_⟩
  obtain ⟨h1, h2⟩ := runSteps_known cs m w (Or.inl hs) o ho
  refine ⟨h1, fun more err h => ?_⟩
  obtain ⟨call, resp, w1, hc⟩ := h2 more err h
  exact ⟨by rw [hc]; simp, call, resp, w1, hc⟩

/-- The scenario "TEST" run for five calls: three return, the last two panic. -/
theorem invalid_state_unreachable_witness :
    (testMech Initial).State = Initial ∧ (testMech Initial).Err = none ∧
    (runSteps (testMech Initial) 0 [none, some [83, 49], some [83, 50], none, none]).length
      = [none, some [83, 49], some [83, 50], none, (none : Bytes)].length ∧
    ∀ o ∈ runSteps (testMech Initial) 0 [none, some [83, 49], some [83, 50], none, none],
      knownPhase o.m.State ∧
      ∀ more err, o.result = .returned more err →
        o.calls ≠ [] ∧
        ∃ call resp w1, o.calls = [⟨call, .returned more resp err w1⟩] :=
  ⟨rfl, rfl,
    invalid_state_unreachable (testMech Initial) 0
      [none, some [83, 49], some [83, 50], none, none] rfl rfl⟩

/-! ## What `Step` reads and what it writes -/

/-- C13, as stated, fails. Two mechanisms with state field `4` and nil stored error that
agree on `Start`, `Next`, state and stored error but differ in `Name` and recorded
response: `Step` returns `(false, ErrInvalidState)` on both and leaves their recorded
responses different. The same happens for two mechanisms reached from fresh ones that
hold the same stored error: `Step` panics on both and their recorded responses stay
different. -/
theorem Step_keeps_different_responses :
    ((testMech 4).Start = (otherMech 4).Start ∧ (testMech 4).Next = (otherMech 4).Next ∧
      (testMech 4).state = (otherMech 4).state ∧ (testMech 4).err = (otherMech 4).err ∧
      (testMech 4).Name ≠ (otherMech 4).Name ∧ (testMech 4).resp ≠ (otherMech 4).resp ∧
      ((testMech 4).Step none 0).result = .returned false (some .ErrInvalidState) ∧
      ((otherMech 4).Step none 0).result = .returned false (some .ErrInvalidState) ∧
      ((testMech 4).Step none 0).m.resp ≠ ((otherMech 4).Step none 0).m.resp) ∧
    (failedA.Start = failedB.Start ∧ failedA.Next = failedB.Next ∧
      failedA.state = failedB.state ∧ failedA.err = failedB.err ∧
      failedA.Name ≠ failedB.Name ∧ failedA.resp ≠ failedB.resp ∧
      (failedA.Step none 2).result = .panicked (.error .ErrAuthz) ∧
      (failedB.Step none 2).result = .panicked (.error .ErrAuthz) ∧
      (failedA.Step none 2).m.resp ≠ (failedB.Step none 2).m.resp) :=
  ⟨⟨rfl, rfl, rfl, rfl, by decide, by decide, rfl, rfl, by decide⟩,
   ⟨rfl, rfl, rfl, rfl, by decide, by decide, rfl, rfl, by decide⟩⟩

/-- C13, amended. Two mechanisms that agree on `Start`, `Next`, state and stored error
(and may differ in `Name` and in the recorded response) make, on the same challenge, the
same invocations with the same arguments, end the same way (the same `(more, err)` or
the same panic) and leave the same state and stored error. When the invoked closure
returns, both record its response; when no closure returns (no invocation, or a panic),
each keeps the response it had. -/
theorem Name_not_interpreted {W : Type} (m1 m2 : Mechanism W) (challenge : Bytes) (w : W)
    (hStart : m1.Start = m2.Start) (hNext : m1.Next = m2.Next)
    (hstate : m1.state = m2.state) (herr : m1.err = m2.err) :
    (m1.Step challenge w).calls = (m2.Step challenge w).calls ∧
    (m1.Step challenge w).result = (m2.Step challenge w).result ∧
    (m1.Step challenge w).world = (m2.Step challenge w).world ∧
    (m1.Step challenge w).m.state = (m2.Step challenge w).m.state ∧
    (m1.Step challenge w).m.err = (m2.Step challenge w).m.err ∧
    (∀ call more resp err w1,
      (m1.Step challenge w).calls = [⟨call, .returned more resp err w1⟩] →
      (m1.Step challenge w).m.resp = resp ∧ (m2.Step challenge w).m.resp = resp) ∧
    ((¬ ∃ call more resp err w1,
        (m1.Step challenge w).calls = [⟨call, .returned more resp err w1⟩]) →
      (m1.Step challenge w).m.resp = m1.resp ∧ (m2.Step challenge w).m.resp = m2.resp) := by
  cases he : m1.err with
  | some e =>
    rw [Step_stored_err m1 challenge w e he,
      Step_stored_err m2 challenge w e (herr ▸ he)]
    simp [hstate, herr]
  | none =>
    have he2 : m2.err = none := herr ▸ he
    by_cases hs : knownPhase m1.state
    · rcases hs with hs | hs | hs | hs
      · rw [Step_Initial m1 challenge w he hs,
          Step_Initial m2 challenge w he2 (hstate ▸ hs), ← hStart]
        cases m1.Start Initial w <;> simp <;>
          first
          | exact ⟨hstate, herr⟩
          | exact herr
          | (intro call; constructor <;> (intros; assumption))
      · rw [Step_AuthTextSent m1 challenge w he hs,
          Step_AuthTextSent m2 challenge w he2 (hstate ▸ hs), ← hNext]
        cases m1.Next AuthTextSent challenge w <;> simp <;>
          first
          | exact ⟨hstate, herr⟩
          | exact herr
          | (intro call; constructor <;> (intros; assumption))
      · rw [Step_ResponseSent m1 challenge w he hs,
          Step_ResponseSent m2 challenge w he2 (hstate ▸ hs), ← hNext]
        cases m1.Next ResponseSent challenge w <;> simp <;>
          first
          | exact ⟨hstate, herr⟩
          | exact herr
          | (intro call; constructor <;> (intros; assumption))
      · rw [Step_ValidServerResponse m1 challenge w he hs,
          Step_ValidServerResponse m2 challenge w he2 (hstate ▸ hs), ← hNext]
        cases m1.Next ValidServerResponse challenge w <;> simp [hstate] <;>
          first
          | exact ⟨hstate, herr⟩
          | exact herr
          | (intro call; constructor <;> (intros; assumption))
    · rw [Step_out_of_range m1 challenge w he hs,
        Step_out_of_range m2 challenge w he2 (hstate ▸ hs)]
      simp [hstate, herr]

/-- The mechanisms "TEST" and "OTHER", fresh, on the challenge "S1": the same
invocation, the same return, the same state, and both record "C1". -/
theorem Name_not_interpreted_witness :
    (testMech Initial).Start = (otherMech Initial).Start ∧
    (testMech Initial).Next = (otherMech Initial).Next ∧
    (testMech Initial).state = (otherMech Initial).state ∧
    (testMech Initial).err = (otherMech Initial).err ∧
    ((testMech Initial).Step (some [83, 49]) 0).calls
      = ((otherMech Initial).Step (some [83, 49]) 0).calls ∧
    ((testMech Initial).Step (some [83, 49]) 0).result
      = ((otherMech Initial).Step (some [83, 49]) 0).result ∧
    ((testMech Initial).Step (some [83, 49]) 0).m.state
      = ((otherMech Initial).Step (some [83, 49]) 0).m.state ∧
    ((testMech Initial).Step (some [83, 49]) 0).m.err
      = ((otherMech Initial).Step (some [83, 49]) 0).m.err ∧
    (((testMech Initial).Step (some [83, 49]) 0).m.resp = some [67, 49] ∧
      ((otherMech Initial).Step (some [83, 49]) 0).m.resp = some [67, 49]) :=
  have h := Name_not_interpreted (testMech Initial) (otherMech Initial) (some [83, 49]) 0
    rfl rfl rfl rfl
  ⟨rfl, rfl, rfl, rfl, h.1, h.2.1, h.2.2.2.1, h.2.2.2.2.1,
    h.2.2.2.2.2.1 (.Start Initial) true (some [67, 49]) none 1 rfl⟩

/-- C16. A refused `Step` is atomic: when the stored error `e` is non-nil, `Step` panics
with panic value exactly `e`, invokes neither `Start` nor `Next`, leaves every field of
the `Mechanism` (and the closures' memory) as it was, and every later `Step` panics
with the same `e`. -/
theorem refused_Step_is_atomic {W : Type} (m : Mechanism W) (challenge : Bytes) (w : W)
    (e : GoError) (h : m.Err = some e) :
    (m.Step challenge w).result = .panicked (.error e) ∧
    (m.Step challenge w).calls = [] ∧
    (m.Step challenge w).m = m ∧
    (m.Step challenge w).world = w ∧
    ∀ (cs : List Bytes) (w2 : W),
      runSteps (m.Step challenge w).m w2 cs
        = cs.map (fun _ => ⟨.panicked (.error e), m, w2, []⟩) := by
  rw [Step_stored_err m challenge w e h]
  exact ⟨rfl, rfl, rfl, rfl, fun cs w2 => runSteps_stored_err cs m w2 e h⟩

/-- The mechanism "TEST" after its third step failed with `ErrAuthn`. -/
theorem refused_Step_is_atomic_witness :
    testStep3.m.Err = some .ErrAuthn ∧
    (testStep3.m.Step (some [83, 51]) 3).result = .panicked (.error .ErrAuthn) ∧
    (testStep3.m.Step (some [83, 51]) 3).calls = [] ∧
    (testStep3.m.Step (some [83, 51]) 3).m = testStep3.m ∧
    (testStep3.m.Step (some [83, 51]) 3).world = 3 ∧
    runSteps (testStep3.m.Step (some [83, 51]) 3).m 3 [none, some [83, 52]]
      = [none, some [83, 52]].map
          (fun _ => ⟨.panicked (.error .ErrAuthn), testStep3.m, 3, []⟩) :=
  have h := refused_Step_is_atomic testStep3.m (some [83, 51]) 3 .ErrAuthn rfl
  ⟨rfl, h.1, h.2.1, h.2.2.1, h.2.2.2.1, h.2.2.2.2 [none, some [83, 52]] 3⟩

/-! ## When `Step` panics -/

/-- C15. When `Start` and `Next` are total (they return on every input, so they are
neither nil nor panicking), `Step` panics if and only if the stored error is non-nil at
the time of the call: with a nil stored error it returns, for every value of the state
field and every challenge, and with a stored error `e` it panics (with `e`), for every
value of the state field, `Initial` included. -/
theorem Step_panics_iff_stored_err {W : Type} (m : Mechanism W) (challenge : Bytes) (w : W)
    (hStart : ∀ s w0, ∃ more resp err w1, m.Start s w0 = .returned more resp err w1)
    (hNext : ∀ s c w0, ∃ more resp err w1, m.Next s c w0 = .returned more resp err w1) :
    ((∃ v, (m.Step challenge w).result = .panicked v) ↔ m.Err ≠ none) ∧
    (m.Err = none → ∃ more err, (m.Step challenge w).result = .returned more err) ∧
    (∀ e, m.Err = some e → (m.Step challenge w).result = .panicked (.error e)) := by
  have hpanic : ∀ e, m.Err = some e →
      (m.Step challenge w).result = .panicked (.error e) := by
    intro e he
    rw [Step_stored_err m challenge w e he]
  have hret : m.Err = none → ∃ more err, (m.Step challenge w).result = .returned more err := by
    intro he
    by_cases hs : knownPhase m.state
    · obtain ⟨call, r, hcalls, hr⟩ := Step_known m challenge w he hs
      rcases hr with ⟨v, w2, hv, -⟩ | ⟨more, resp, err, w2, -, hres, -⟩
      · exfalso
        rcases hs with hs | hs | hs | hs
        · rw [Step_Initial m challenge w he hs] at hcalls
          obtain ⟨a, b, c, d, hq⟩ := hStart Initial w
          rw [hq] at hcalls
          simp only [List.cons.injEq, Invocation.mk.injEq, and_true] at hcalls
          rw [hv] at hcalls; exact absurd hcalls.2 (by simp)
        · rw [Step_AuthTextSent m challenge w he hs] at hcalls
          obtain ⟨a, b, c, d, hq⟩ := hNext AuthTextSent challenge w
          rw [hq] at hcalls
          simp only [List.cons.injEq, Invocation.mk.injEq, and_true] at hcalls
          rw [hv] at hcalls; exact absurd hcalls.2 (by simp)
        · rw [Step_ResponseSent m challenge w he hs] at hcalls
          obtain ⟨a, b, c, d, hq⟩ := hNext ResponseSent challenge w
          rw [hq] at hcalls
          simp only [List.cons.injEq, Invocation.mk.injEq, and_true] at hcalls
          rw [hv] at hcalls; exact absurd hcalls.2 (by simp)
        · rw [Step_ValidServerResponse m challenge w he hs] at hcalls
          obtain ⟨a, b, c, d, hq⟩ := hNext ValidServerResponse challenge w
          rw [hq] at hcalls
          simp only [List.cons.injEq, Invocation.mk.injEq, and_true] at hcalls
          rw [hv] at hcalls; exact absurd hcalls.2 (by simp)
      · exact ⟨more, err, hres⟩
    · rw [Step_out_of_range m challenge w he hs]
      exact ⟨false, some .ErrInvalidState, rfl⟩
  refine ⟨⟨fun ⟨v, hv⟩ he => ?_, fun hne => ?_⟩, hret, hpanic⟩
  · obtain ⟨more, err, hr⟩ := hret he
    rw [hr] at hv; exact absurd hv (by simp)
  · cases he : m.Err with
    | none => exact absurd he hne
    | some e => exact ⟨.error e, hpanic e he⟩

/-- The closures of "TEST" are total. With a nil stored error `Step` returns, at
`ResponseSent` and at the out-of-range state `-3`; with the stored error `ErrAuthz` it
panics at `Initial`. -/
theorem Step_panics_iff_stored_err_witness :
    (∀ s w0, ∃ more resp err w1, testStart s w0 = .returned more resp err w1) ∧
    (∀ s c w0, ∃ more resp err w1, testNext s c w0 = .returned more resp err w1) ∧
    (testMech ResponseSent).Err = none ∧
    (∃ more err, ((testMech ResponseSent).Step none 2).result = .returned more err) ∧
    (testMech (-3)).Err = none ∧
    (∃ more err, ((testMech (-3)).Step none 0).result = .returned more err) ∧
    (refusedMech Initial).Err = some .ErrAuthz ∧
    ((refusedMech Initial).Step none 0).result = .panicked (.error .ErrAuthz) ∧
    ((∃ v, ((refusedMech Initial).Step none 0).result = .panicked v)
      ↔ (refusedMech Initial).Err ≠ none) :=
  have hS : ∀ (s : State) (w0 : Nat), ∃ more resp err w1,
      testStart s w0 = .returned more resp err w1 :=
    fun _ _ => ⟨_, _, _, _, rfl⟩
  have hN : ∀ (s : State) (c : Bytes) (w0 : Nat), ∃ more resp err w1,
      testNext s c w0 = .returned more resp err w1 :=
    fun s c w0 => by
      unfold testNext
      split
      · exact ⟨_, _, _, _, rfl⟩
      · exact ⟨_, _, _, _, rfl⟩
  ⟨hS, hN,
    rfl, (Step_panics_iff_stored_err (testMech ResponseSent) none 2 hS hN).2.1 rfl,
    rfl, (Step_panics_iff_stored_err (testMech (-3)) none 0 hS hN).2.1 rfl,
    rfl, (Step_panics_iff_stored_err (refusedMech Initial) none 0 hS hN).2.2 .ErrAuthz rfl,
    (Step_panics_iff_stored_err (refusedMech Initial) none 0 hS hN).1⟩

/-! ## Closures that hold their `Mechanism`: the exported fields -/

namespace Capturing

/-- `Step` makes no invocation and leaves the `Mechanism` as it was, or it makes exactly
one invocation and the exported fields afterwards are what that invocation assigned,
or, where it assigned nothing, what they were. -/
theorem Step_exported {W : Type} (m : Mechanism W) (c : Bytes) (w : W) :
    ((m.Step c w).calls = [] ∧ (m.Step c w).m = m) ∨
    ∃ i, (m.Step c w).calls = [i] ∧
      (m.Step c w).m.Name = i.assigned.Name.getD m.Name ∧
      (m.Step c w).m.Start = i.assigned.Start.getD m.Start ∧
      (m.Step c w).m.Next = i.assigned.Next.getD m.Next := by
  unfold Mechanism.Step
  cases he : m.Err with
  | some e => exact Or.inl ⟨rfl, rfl⟩
  | none =>
    simp only
    split_ifs
    · rcases hr : m.Start.call m.state w with ⟨r, a⟩
      cases r <;> exact Or.inr ⟨_, rfl, rfl, rfl, rfl⟩
    · rcases hr : m.Next.call m.state c w with ⟨r, a⟩
      cases r <;> exact Or.inr ⟨_, rfl, rfl, rfl, rfl⟩
    · rcases hr : m.Next.call m.state c w with ⟨r, a⟩
      cases r <;> exact Or.inr ⟨_, rfl, rfl, rfl, rfl⟩
    · rcases hr : m.Next.call m.state c w with ⟨r, a⟩
      cases r <;> exact Or.inr ⟨_, rfl, rfl, rfl, rfl⟩
    · exact Or.inl ⟨rfl, rfl⟩

/-- When no closure holds the `Mechanism`, `Step` with capturing closures is the `Step`
of the first part of this file. -/
theorem Step_ofMechanism {W : Type} (m : Sasl.Mechanism W) (c : Bytes) (w : W) :
    (ofMechanism m).Step c w = ofStepOut (m.Step c w) := by
  unfold Mechanism.Step Sasl.Mechanism.Step
  cases he : m.err with
  | some e => simp [Mechanism.Err, Sasl.Mechanism.Err, ofMechanism, ofStepOut, he]
  | none =>
    simp only [Mechanism.Err, Sasl.Mechanism.Err, ofMechanism, he]
    split_ifs
    · cases hr : m.Start m.state w <;>
        simp [ofStart, StartFunc.call, hr, ofStepOut, ofMechanism, ofInvocation,
          Mechanism.assigned, he]
    · cases hr : m.Next m.state c w <;>
        simp [ofNext, NextFunc.call, hr, ofStepOut, ofMechanism, ofInvocation,
          Mechanism.assigned, he]
    · cases hr : m.Next m.state c w <;>
        simp [ofNext, NextFunc.call, hr, ofStepOut, ofMechanism, ofInvocation,
          Mechanism.assigned, he]
    · cases hr : m.Next m.state c w <;>
        simp [ofNext, NextFunc.call, hr, ofStepOut, ofMechanism, ofInvocation,
          Mechanism.assigned, he]
    · simp [ofStepOut, ofMechanism, he]

/-- C14, as stated, fails. The fresh mechanism "TEST" whose `Start` closure holds it and
assigns `m.Name` and `m.Next` before returning `(true, "C1", nil)`: `Step(nil)`
returns `(true, nil)`, and afterwards `Name` and `Next` are not what they were before
the call. -/
theorem capturing_Start_assigns_exported :
    renamingMech.state = Initial ∧ renamingMech.Err = none ∧
    (renamingMech.Step none 0).result = .returned true none ∧
    (renamingMech.Step none 0).m.Name = "RENAMED" ∧
    (renamingMech.Step none 0).m.Name ≠ renamingMech.Name ∧
    (renamingMech.Step none 0).m.Next ≠ renamingMech.Next := by
  refine ⟨rfl, rfl, rfl, rfl, by decide, fun h => ?_⟩
  have h1 : ofNext echoNext = ofNext testNext := h
  have h2 := congrArg (fun f => (f.call ResponseSent (some [83, 50]) 0).1) h1
  simp [NextFunc.call, ofNext, echoNext, testNext, ResponseSent, AuthTextSent] at h2

/-- C14, amended. `Step` itself assigns only the state, the recorded response and the
stored error: for every `Mechanism`, challenge and closures' memory, each of `Name`,
`Start` and `Next` that the invoked closure did not assign is after the call what it
was before it (when `Step` returns, and also when it panics); and `Err()` and `State()`
return the stored error and the state field and leave the `Mechanism` as it was. -/
theorem Step_keeps_unassigned_exported {W : Type} (m : Mechanism W) (challenge : Bytes)
    (w : W) :
    ((∀ i ∈ (m.Step challenge w).calls, i.assigned.Name = none) →
      (m.Step challenge w).m.Name = m.Name) ∧
    ((∀ i ∈ (m.Step challenge w).calls, i.assigned.Start = none) →
      (m.Step challenge w).m.Start = m.Start) ∧
    ((∀ i ∈ (m.Step challenge w).calls, i.assigned.Next = none) →
      (m.Step challenge w).m.Next = m.Next) ∧
    m.Err = m.err ∧ m.callErr = (m.err, m) ∧
    m.State = m.state ∧ m.callState = (m.state, m) := by
  refine ⟨fun h => ?_, fun h => ?_, fun h => ?_, rfl, rfl, rfl, rfl⟩
  · rcases Step_exported m challenge w with ⟨-, hm⟩ | ⟨i, hc, hN, -, -⟩
    · rw [hm]
    · rw [hN, h i (by rw [hc]; exact List.mem_singleton.2 rfl)]; rfl
  · rcases Step_exported m challenge w with ⟨-, hm⟩ | ⟨i, hc, -, hS, -⟩
    · rw [hm]
    · rw [hS, h i (by rw [hc]; exact List.mem_singleton.2 rfl)]; rfl
  · rcases Step_exported m challenge w with ⟨-, hm⟩ | ⟨i, hc, -, -, hX⟩
    · rw [hm]
    · rw [hX, h i (by rw [hc]; exact List.mem_singleton.2 rfl)]; rfl

/-- The renaming `Start` does not assign `m.Start`, so `Start` is kept; and the third
step of "TEST", whose closures do not hold the mechanism, keeps all three fields. -/
theorem Step_keeps_unassigned_exported_witness :
    (∀ i ∈ (renamingMech.Step none 0).calls, i.assigned.Start = none) ∧
    (renamingMech.Step none 0).m.Start = renamingMech.Start ∧
    (∀ i ∈ ((ofMechanism (testMech ResponseSent)).Step (some [83, 50]) 2).calls,
      i.assigned.Name = none ∧ i.assigned.Start = none ∧ i.assigned.Next = none) ∧
    ((ofMechanism (testMech ResponseSent)).Step (some [83, 50]) 2).result
      = .returned false (some .ErrAuthn) ∧
    ((ofMechanism (testMech ResponseSent)).Step (some [83, 50]) 2).m.Name = "TEST" ∧
    ((ofMechanism (testMech ResponseSent)).Step (some [83, 50]) 2).m.Start
      = ofStart testStart ∧
    ((ofMechanism (testMech ResponseSent)).Step (some [83, 50]) 2).m.Next
      = ofNext testNext :=
  have h1 : ∀ i ∈ (renamingMech.Step none 0).calls, i.assigned.Start = none :=
    fun i hi => by
      have hi1 : i = ⟨.Start Initial, .returned true (some [67, 49]) none 1,
          ⟨some "RENAMED", none, some (ofNext echoNext)⟩⟩ := List.mem_singleton.1 hi
      rw [hi1]
  have h2 : ∀ i ∈ ((ofMechanism (testMech ResponseSent)).Step (some [83, 50]) 2).calls,
      i.assigned.Name = none ∧ i.assigned.Start = none ∧ i.assigned.Next = none :=
    fun i hi => by
      have hi1 : i = ⟨.Next ResponseSent (some [83, 50]),
          .returned false none (some .ErrAuthn) 3, ⟨none, none, none⟩⟩ :=
        List.mem_singleton.1 hi
      rw [hi1]
      exact ⟨rfl, rfl, rfl⟩
  have t := Step_keeps_unassigned_exported (ofMechanism (testMech ResponseSent))
    (some [83, 50]) 2
  ⟨h1, (Step_keeps_unassigned_exported renamingMech none 0).2.1 h1,
    h2, rfl, t.1 (fun i hi => (h2 i hi).1), t.2.1 (fun i hi => (h2 i hi).2.1),
    t.2.2.1 (fun i hi => (h2 i hi).2.2)⟩

end Capturing

end Sasl
